import Mathlib
deriving instance DecidableEq for Except

/-!
Verification of the argument-parsing core of `cargo-download`
(`src/args.rs`), shallowly embedded in Lean 4.

Rust strings are modelled as `List Char` (`Str`).  Rust's
`char::is_alphanumeric` (Unicode) is modelled by `Char.isAlphanum`
(basic latin); no property below depends on characters outside the
basic latin range.  The external `semver` and `clap` library
behaviours that the code delegates to are modelled from the
specification, as noted on each such definition.
-/


/-- Rust `&str` / `String`, modelled as a list of characters. -/
abbrev Str := List Char

/-- Convert a Lean string literal to the `Str` model. -/
def toChars (s : String) : Str := s.data

/-- Rust `str::trim`: remove leading and trailing whitespace. -/
def trimStr (s : Str) : Str :=
  ((s.dropWhile Char.isWhitespace).reverse.dropWhile Char.isWhitespace).reverse

/-- Rust `s.splitn(2, "=")`: `none` when `s` has no `'='`; otherwise the
part before the first `'='` and everything after it. -/
def splitFirstEq : Str → Option (Str × Str)
  | [] => none
  | c :: rest =>
    if c = '=' then some ([], rest)
    else
      match splitFirstEq rest with
      | none => none
      | some (a, b) => some (c :: a, b)

/-- The character class accepted for crate names in `Crate::from_str`:
`c.is_alphanumeric() || c == '-' || c == '_'`. -/
def isAllowedNameChar (c : Char) : Bool :=
  c.isAlphanum || c = '-' || c = '_'

/-- Modelled from the spec: the `semver` library's `Version` type
(external dependency, not in `src/`): a fully specified semantic
version `major.minor.patch`.  Optional pre-release/build metadata is
omitted; no claim depends on it. -/
structure Version where
  major : Nat
  minor : Nat
  patch : Nat
deriving DecidableEq

/-- Decimal digits of a natural number, most significant first. -/
def natToDigits (n : Nat) : List Char :=
  if _h : n < 10 then [Nat.digitChar n]
  else natToDigits (n / 10) ++ [Nat.digitChar (n % 10)]
decreasing_by
  exact Nat.div_lt_self (by omega) (by omega)

/-- Value of a list of decimal digit characters. -/
def natFromDigits (ds : List Char) : Nat :=
  ds.foldl (fun a c => a * 10 + (c.toNat - 48)) 0

/-- Consume a non-empty run of leading decimal digits, returning its
value and the rest of the input. -/
def parseNatPrefix (s : Str) : Option (Nat × Str) :=
  let ds := s.takeWhile Char.isDigit
  if ds.isEmpty then none
  else some (natFromDigits ds, s.dropWhile Char.isDigit)

/-- Expect a literal `.` and return what follows it. -/
def expectDot : Str → Option Str
  | '.' :: r => some r
  | _ => none

/-- Modelled from the spec: the `semver` library's `Version::from_str`
(external dependency, not in `src/`): parse exactly
`major.minor.patch` with decimal numeric components. -/
def Version.parse (s : Str) : Option Version :=
  (parseNatPrefix s).bind fun p1 =>
    (expectDot p1.2).bind fun s2 =>
      (parseNatPrefix s2).bind fun p2 =>
        (expectDot p2.2).bind fun s4 =>
          (parseNatPrefix s4).bind fun p3 =>
            match p3.2 with
            | [] => some ⟨p1.1, p2.1, p3.1⟩
            | _ => none

/-- Modelled from the spec: the `semver` library's `Display` for
`Version`: canonical `major.minor.patch`. -/
def Version.render (v : Version) : Str :=
  natToDigits v.major ++ '.' :: (natToDigits v.minor ++ '.' :: natToDigits v.patch)

/-- Modelled from the spec: comparator operators of the semantic-version
requirement grammar (the `semver` library's `ReqOp`). -/
inductive ReqOp where
  | Ex | Gt | GtEq | Lt | LtEq | Tilde | Compatible | WildcardMinor | WildcardPatch
deriving DecidableEq

/-- Modelled from the spec: a single comparator of a requirement
(the `semver` library's `Predicate`). -/
structure Predicate where
  op : ReqOp
  major : Nat
  minor : Option Nat
  patch : Option Nat
deriving DecidableEq

/-- Modelled from the spec: the `semver` library's `VersionReq`, a
conjunction of comparators. -/
structure VersionReq where
  predicates : List Predicate
deriving DecidableEq

/-- `VersionReq::any()`: the universal requirement (no comparators). -/
def VersionReq.any : VersionReq := ⟨[]⟩

/-- `Predicate::exact(v)`: the comparator matching exactly `v`. -/
def Predicate.exact (v : Version) : Predicate :=
  ⟨ReqOp.Ex, v.major, some v.minor, some v.patch⟩

/-- `VersionReq::exact(v)`: the singleton requirement matching exactly `v`. -/
def VersionReq.exact (v : Version) : VersionReq := ⟨[Predicate.exact v]⟩

/-- Strict version order (lexicographic on major, minor, patch). -/
def versionLt (a b : Version) : Bool :=
  decide (a.major < b.major) ||
    (decide (a.major = b.major) &&
      (decide (a.minor < b.minor) ||
        (decide (a.minor = b.minor) && decide (a.patch < b.patch))))

/-- The version a predicate pins, with unspecified parts read as 0. -/
def Predicate.predVersion (p : Predicate) : Version :=
  ⟨p.major, p.minor.getD 0, p.patch.getD 0⟩

/-- Modelled from the spec: whether a version satisfies one comparator
(the `semver` library's predicate matching). -/
def Predicate.matches (p : Predicate) (v : Version) : Bool :=
  match p.op with
  | ReqOp.Ex =>
    decide (v.major = p.major) && p.minor.all (fun m => decide (v.minor = m)) &&
      p.patch.all (fun q => decide (v.patch = q))
  | ReqOp.Gt => versionLt p.predVersion v
  | ReqOp.GtEq => versionLt p.predVersion v || decide (v = p.predVersion)
  | ReqOp.Lt => versionLt v p.predVersion
  | ReqOp.LtEq => versionLt v p.predVersion || decide (v = p.predVersion)
  | ReqOp.Tilde =>
    decide (v.major = p.major) && p.minor.all (fun m => decide (v.minor = m)) &&
      (match p.patch with
       | none => true
       | some q => decide (q ≤ v.patch))
  | ReqOp.Compatible =>
    decide (v.major = p.major) && (versionLt p.predVersion v || decide (v = p.predVersion))
  | ReqOp.WildcardMinor => decide (v.major = p.major)
  | ReqOp.WildcardPatch =>
    decide (v.major = p.major) && p.minor.all (fun m => decide (v.minor = m))

/-- Modelled from the spec: a version satisfies a requirement iff it
satisfies every comparator of the conjunction. -/
def VersionReq.matches (r : VersionReq) (v : Version) : Bool :=
  r.predicates.all (fun p => p.matches v)

/-- Leading comparator operator of a predicate string; a missing
operator defaults to caret compatibility. -/
def parseReqOp : Str → ReqOp × Str
  | '>' :: '=' :: r => (ReqOp.GtEq, r)
  | '<' :: '=' :: r => (ReqOp.LtEq, r)
  | '>' :: r => (ReqOp.Gt, r)
  | '<' :: r => (ReqOp.Lt, r)
  | '=' :: r => (ReqOp.Ex, r)
  | '~' :: r => (ReqOp.Tilde, r)
  | '^' :: r => (ReqOp.Compatible, r)
  | s => (ReqOp.Compatible, s)

/-- Wildcard component spellings. -/
def isWildcardStr (s : Str) : Bool :=
  s == ['*'] || s == ['x'] || s == ['X']

/-- Modelled from the spec: parse one comparator: optional operator,
then `major[.minor[.patch]]` where minor/patch may be wildcards. -/
def parsePredicate (s : Str) : Option Predicate :=
  let t := trimStr s
  let (op, r0) := parseReqOp t
  let r := r0.dropWhile (fun c => c = ' ')
  match parseNatPrefix r with
  | none => none
  | some (maj, r1) =>
    match r1 with
    | [] => some ⟨op, maj, none, none⟩
    | '.' :: r2 =>
      if isWildcardStr r2 then some ⟨ReqOp.WildcardMinor, maj, none, none⟩
      else
        match parseNatPrefix r2 with
        | none => none
        | some (minr, r3) =>
          match r3 with
          | [] => some ⟨op, maj, some minr, none⟩
          | '.' :: r4 =>
            if isWildcardStr r4 then some ⟨ReqOp.WildcardPatch, maj, some minr, none⟩
            else
              match parseNatPrefix r4 with
              | some (pat, []) => some ⟨op, maj, some minr, some pat⟩
              | _ => none
          | _ => none
    | _ => none

/-- Split a string on every comma. -/
def splitComma : Str → List Str
  | [] => [[]]
  | c :: rest =>
    if c = ',' then [] :: splitComma rest
    else
      match splitComma rest with
      | [] => [[c]]
      | p :: ps => (c :: p) :: ps

/-- Modelled from the spec: the `semver` library's
`VersionReq::from_str` (external dependency, not in `src/`):
comma-separated comparator conjunctions, with caret/tilde shorthand and
wildcards; `*` alone is the universal requirement. -/
def VersionReq.parse (s : Str) : Option VersionReq :=
  let t := trimStr s
  if t = ['*'] then some VersionReq.any
  else
    match (splitComma t).mapM parsePredicate with
    | some ps => some ⟨ps⟩
    | none => none

/-- Rendering of one comparator operator. -/
def ReqOp.render : ReqOp → Str
  | ReqOp.Ex => toChars "="
  | ReqOp.Gt => toChars ">"
  | ReqOp.GtEq => toChars ">="
  | ReqOp.Lt => toChars "<"
  | ReqOp.LtEq => toChars "<="
  | ReqOp.Tilde => toChars "~"
  | ReqOp.Compatible => toChars "^"
  | ReqOp.WildcardMinor => []
  | ReqOp.WildcardPatch => []

/-- Rendering of one comparator. -/
def Predicate.render (p : Predicate) : Str :=
  p.op.render ++ natToDigits p.major ++
    (match p.minor with
     | none => if p.op = ReqOp.WildcardMinor then toChars ".*" else []
     | some m =>
       '.' :: natToDigits m ++
         (match p.patch with
          | none => if p.op = ReqOp.WildcardPatch then toChars ".*" else []
          | some q => '.' :: natToDigits q))

/-- Modelled from the spec: `Display` for `VersionReq`: native
requirement syntax; the universal requirement renders as `*`. -/
def VersionReq.render (r : VersionReq) : Str :=
  match r.predicates with
  | [] => toChars "*"
  | p :: ps => p.render ++ (ps.map (fun q => toChars ", " ++ q.render)).flatten

/-- Error from `CrateVersion::from_str` (`CrateVersionError` in
`src/args.rs`); the payload models the offending text carried by the
underlying `semver` error. -/
inductive CrateVersionError where
  | SyntaxError (t : Str)
  | SemanticsError (t : Str)
deriving DecidableEq

/-- Crate version (`CrateVersion` in `src/args.rs`): an exact version
pin (written with a leading `=`) or any other requirement. -/
inductive CrateVersion where
  | Exact (v : Version)
  | Other (r : VersionReq)
deriving DecidableEq

/-- `CrateVersion::from_str`: a leading `=` selects exact-version
parsing of the remainder; otherwise the whole string is parsed as a
range requirement. -/
def CrateVersion.fromStr : Str → Except CrateVersionError CrateVersion
  | '=' :: rest =>
    match Version.parse rest with
    | some v => Except.ok (CrateVersion.Exact v)
    | none => Except.error (CrateVersionError.SyntaxError rest)
  | s =>
    match VersionReq.parse s with
    | some r => Except.ok (CrateVersion.Other r)
    | none => Except.error (CrateVersionError.SemanticsError s)

/-- `Display` for `CrateVersion`: `Exact v` renders as `=v`, `Other r`
in the requirement's native syntax. -/
def CrateVersion.render : CrateVersion → Str
  | CrateVersion.Exact v => '=' :: v.render
  | CrateVersion.Other r => VersionReq.render r

/-- Error from `Crate::from_str` (`CrateError` in `src/args.rs`). -/
inductive CrateError where
  | Name (n : Str)
  | Version (e : CrateVersionError)
deriving DecidableEq

/-- Specification of a crate to download (`Crate` in `src/args.rs`). -/
structure Crate where
  name : Str
  version : CrateVersion
deriving DecidableEq

/-- `Crate::from_str`: split on the first `=`, trim each part; a bare
token is a name validated against the allowed character class and gets
the universal version requirement; with a version part, the name is
stored as-is and the version part is delegated to
`CrateVersion::from_str`. -/
def Crate.fromStr (s : Str) : Except CrateError Crate :=
  match splitFirstEq s with
  | none =>
    let name := trimStr s
    if name.all isAllowedNameChar then
      Except.ok ⟨name, CrateVersion.Other VersionReq.any⟩
    else
      Except.error (CrateError.Name name)
  | some (a, b) =>
    let name := trimStr a
    match CrateVersion.fromStr (trimStr b) with
    | Except.ok v => Except.ok ⟨name, v⟩
    | Except.error e => Except.error (CrateError.Version e)

/-- `Crate::exact_version`. -/
def Crate.exact_version (c : Crate) : Option Version :=
  match c.version with
  | CrateVersion.Exact v => some v
  | _ => none

/-- `Crate::version_requirement`: the requirement-shaped projection of
either variant (the `Cow` wrapper of the source is erased). -/
def Crate.version_requirement (c : Crate) : VersionReq :=
  match c.version with
  | CrateVersion.Exact v => VersionReq.exact v
  | CrateVersion.Other r => r

/-- `Display` for `Crate`: `name=version`. -/
def Crate.render (c : Crate) : Str :=
  c.name ++ '=' :: c.version.render

/-- Output destination (`Output` in `src/args.rs`); `PathBuf` is
modelled as the raw string. -/
inductive Output where
  | Path (p : Str)
  | Stdout
deriving DecidableEq

/-- `From<&str> for Output`: the literal `-` is standard output, any
other string is a path, verbatim. -/
def Output.fromStr (s : Str) : Output :=
  if s = ['-'] then Output.Stdout else Output.Path s

/-- Grammar-level failure of the argument matcher; models the distinct
`clap::Error` kinds this grammar can produce. -/
inductive ClapError where
  | unknownArg (t : Str)
  | unexpectedArg (t : Str)
  | unexpectedValue (name : Str)
  | multipleUsage (name : Str)
  | emptyValue
  | conflict
  | missingRequired
  | helpDisplayed
  | versionDisplayed
deriving DecidableEq

/-- Top-level argument error (`ArgsError` in `src/args.rs`). -/
inductive ArgsError where
  | Parse (e : ClapError)
  | Crate (e : CrateError)
  | CantExtractToStdout
deriving DecidableEq

/-- Validated options (`Options` in `src/args.rs`); `isize` verbosity
is modelled as `Int`. -/
structure Options where
  verbosity : Int
  crate_ : Crate
  extract : Bool
  output : Option Output
deriving DecidableEq

/-- The match-set handed to `Options::try_from`: occurrence counts of
the counted flags, the raw output value if supplied, and the required
positional crate token. -/
structure Matches where
  verbose : Nat
  quiet : Nat
  extract : Nat
  output : Option Str
  crate : Str
deriving DecidableEq

/-- `Options::try_from(matches)`: verbosity from flag counts, crate
token parsed (its failure propagates first), extract presence, output
mapping, then the cross-field extract/stdout check, in source order. -/
def Options.tryFrom (m : Matches) : Except ArgsError Options :=
  let verbosity : Int := (m.verbose : Int) - (m.quiet : Int)
  match Crate.fromStr m.crate with
  | Except.error e => Except.error (ArgsError.Crate e)
  | Except.ok crate_ =>
    let extract := decide (0 < m.extract)
    let output := m.output.map Output.fromStr
    if extract = true ∧ output = some Output.Stdout then
      Except.error ArgsError.CantExtractToStdout
    else
      Except.ok ⟨verbosity, crate_, extract, output⟩

/-- Running state of the grammar matcher. -/
structure ArgState where
  verbose : Nat
  quiet : Nat
  extract : Nat
  output : Option Str
  crate : Option Str
  posOnly : Bool
  awaitingOutput : Bool
deriving DecidableEq

/-- Initial matcher state. -/
def initArgState : ArgState := ⟨0, 0, 0, none, none, false, false⟩

/-- A token that looks like a flag (starts with `-` and is not the
lone `-`). -/
def flagLike : Str → Bool
  | '-' :: _ :: _ => true
  | _ => false

/-- Record the positional crate token; a second positional is a
grammar error. -/
def addPositional (st : ArgState) (t : Str) : Except ClapError ArgState :=
  match st.crate with
  | none => Except.ok { st with crate := some t }
  | some _ => Except.error (ClapError.unexpectedArg t)

/-- Record the output value; a repeated `--output` is a grammar error. -/
def setOutput (st : ArgState) (v : Str) : Except ClapError ArgState :=
  match st.output with
  | none => Except.ok { st with output := some v }
  | some _ => Except.error (ClapError.multipleUsage (toChars "output"))

/-- Modelled from the spec: `clap`'s handling of a group of short
flags after one `-` (external dependency, not in `src/`), for the
grammar declared in `create_parser`: `v`, `q` counted; `x` the extract
flag; `o` takes the rest of the group or the next token as its value;
`H` and `V` are the help and version shorthands. -/
def processShorts : List Char → ArgState → Except ClapError ArgState
  | [], st => Except.ok st
  | c :: cs, st =>
    if c = 'v' then processShorts cs { st with verbose := st.verbose + 1 }
    else if c = 'q' then processShorts cs { st with quiet := st.quiet + 1 }
    else if c = 'x' then processShorts cs { st with extract := st.extract + 1 }
    else if c = 'o' then
      match cs with
      | [] => Except.ok { st with awaitingOutput := true }
      | _ => setOutput st cs
    else if c = 'H' then Except.error ClapError.helpDisplayed
    else if c = 'V' then Except.error ClapError.versionDisplayed
    else Except.error (ClapError.unknownArg ('-' :: c :: cs))

/-- Modelled from the spec: `clap`'s handling of one long option
(external dependency, not in `src/`), for the grammar declared in
`create_parser`; `--output` accepts an inline `=value` or the next
token. -/
def processLong (body : Str) (st : ArgState) : Except ClapError ArgState :=
  match splitFirstEq body with
  | some (nm, v) =>
    if nm = toChars "output" then setOutput st v
    else if nm = toChars "extract" ∨ nm = toChars "verbose" ∨ nm = toChars "quiet" then
      Except.error (ClapError.unexpectedValue nm)
    else Except.error (ClapError.unknownArg ('-' :: '-' :: body))
  | none =>
    if body = toChars "extract" then Except.ok { st with extract := st.extract + 1 }
    else if body = toChars "verbose" then Except.ok { st with verbose := st.verbose + 1 }
    else if body = toChars "quiet" then Except.ok { st with quiet := st.quiet + 1 }
    else if body = toChars "output" then Except.ok { st with awaitingOutput := true }
    else if body = toChars "help" then Except.error ClapError.helpDisplayed
    else if body = toChars "version" then Except.error ClapError.versionDisplayed
    else Except.error (ClapError.unknownArg ('-' :: '-' :: body))

/-- Modelled from the spec: `clap`'s token loop (external dependency,
not in `src/`): a pending `--output` consumes the next non-flag-like
token; `--` switches to positional-only mode; long options, short
groups and positionals are dispatched as declared in `create_parser`. -/
def processTokens : List Str → ArgState → Except ClapError ArgState
  | [], st => if st.awaitingOutput then Except.error ClapError.emptyValue else Except.ok st
  | t :: rest, st =>
    if st.awaitingOutput then
      if flagLike t then Except.error ClapError.emptyValue
      else
        match setOutput { st with awaitingOutput := false } t with
        | Except.error e => Except.error e
        | Except.ok st1 => processTokens rest st1
    else if st.posOnly then
      match addPositional st t with
      | Except.error e => Except.error e
      | Except.ok st1 => processTokens rest st1
    else
      match t with
      | '-' :: '-' :: [] => processTokens rest { st with posOnly := true }
      | '-' :: '-' :: body =>
        match processLong body st with
        | Except.error e => Except.error e
        | Except.ok st1 => processTokens rest st1
      | '-' :: c :: cs =>
        match processShorts (c :: cs) st with
        | Except.error e => Except.error e
        | Except.ok st1 => processTokens rest st1
      | _ =>
        match addPositional st t with
        | Except.error e => Except.error e
        | Except.ok st1 => processTokens rest st1

/-- Modelled from the spec: `clap`'s end-of-parse validation for this
grammar: the declared `verbose`/`quiet` conflict, then the required
positional. -/
def validateMatches (st : ArgState) : Except ClapError Matches :=
  if 0 < st.verbose ∧ 0 < st.quiet then Except.error ClapError.conflict
  else
    match st.crate with
    | none => Except.error ClapError.missingRequired
    | some c => Except.ok ⟨st.verbose, st.quiet, st.extract, st.output, c⟩

/-- Modelled from the spec: `parser.get_matches_from_safe(argv)`: skip
the binary name, match the remaining tokens, validate. -/
def getMatchesFrom (argv : List Str) : Except ClapError Matches :=
  match processTokens (argv.drop 1) initArgState with
  | Except.error e => Except.error e
  | Except.ok st => validateMatches st

/-- The literal subcommand token `download`. -/
def downloadTok : Str := toChars "download"

/-- The `cargo download` normalization of `parse_from_argv`: drop the
element at index 1 when it equals `download`. -/
def stripDownload : List Str → List Str
  | a :: b :: rest => if b = downloadTok then a :: rest else a :: b :: rest
  | l => l

/-- Grammar matching plus options assembly, without the subcommand
normalization. -/
def parseNoSub (argv : List Str) : Except ArgsError Options :=
  match getMatchesFrom argv with
  | Except.error e => Except.error (ArgsError.Parse e)
  | Except.ok m => Options.tryFrom m

/-- `parse_from_argv` of `src/args.rs`. -/
def parseFromArgv (argv : List Str) : Except ArgsError Options :=
  parseNoSub (stripDownload argv)

/-! ### Helper lemmas about characters, trimming and splitting -/

theorem allowed_not_ws (c : Char) (h : isAllowedNameChar c = true) :
    c.isWhitespace = false := by
  cases hw : c.isWhitespace
  · rfl
  · exfalso
    have h4 : ((c = ' ' ∨ c = '\t') ∨ c = '\r') ∨ c = '\n' := by
      simpa [Char.isWhitespace] using hw
    rcases h4 with ((rfl | rfl) | rfl) | rfl <;> exact absurd h (by decide)

theorem digit_not_ws (c : Char) (h : c.isDigit = true) : c.isWhitespace = false := by
  cases hw : c.isWhitespace
  · rfl
  · exfalso
    have h4 : ((c = ' ' ∨ c = '\t') ∨ c = '\r') ∨ c = '\n' := by
      simpa [Char.isWhitespace] using hw
    rcases h4 with ((rfl | rfl) | rfl) | rfl <;> exact absurd h (by decide)

theorem allowed_ne_eqChar (c : Char) (h : isAllowedNameChar c = true) : c ≠ '=' := by
  rintro rfl
  exact absurd h (by decide)

theorem dropWhile_eq_self_of_not (p : Char → Bool) (xs : Str)
    (h : ∀ c ∈ xs, p c = false) : xs.dropWhile p = xs := by
  cases xs with
  | nil => rfl
  | cons c cs => simp [List.dropWhile_cons, h c (by simp)]

theorem trimStr_eq_self (s : Str) (h : ∀ c ∈ s, c.isWhitespace = false) :
    trimStr s = s := by
  unfold trimStr
  rw [dropWhile_eq_self_of_not _ _ h]
  rw [dropWhile_eq_self_of_not _ _ (fun c hc => h c (List.mem_reverse.mp hc))]
  exact List.reverse_reverse s

theorem splitFirstEq_of_not_mem (s : Str) (h : '=' ∉ s) : splitFirstEq s = none := by
  induction s with
  | nil => rfl
  | cons c cs ih =>
    have hc : ¬(c = '=') := fun hh => h (by simp [hh])
    have hcs : '=' ∉ cs := fun hh => h (List.mem_cons_of_mem _ hh)
    simp [splitFirstEq, hc, ih hcs]

theorem splitFirstEq_append (a b : Str) (h : '=' ∉ a) :
    splitFirstEq (a ++ '=' :: b) = some (a, b) := by
  induction a with
  | nil => simp [splitFirstEq]
  | cons c cs ih =>
    have hc : ¬(c = '=') := fun hh => h (by simp [hh])
    have hcs : '=' ∉ cs := fun hh => h (List.mem_cons_of_mem _ hh)
    simp [splitFirstEq, hc, ih hcs]

/-! ### Helper lemmas about decimal digits -/

theorem digitChar_isDigit (k : Nat) (h : k < 10) : (Nat.digitChar k).isDigit = true := by
  interval_cases k <;> decide

theorem digitChar_toNat (k : Nat) (h : k < 10) : (Nat.digitChar k).toNat = 48 + k := by
  interval_cases k <;> decide

theorem natToDigits_small (n : Nat) (h : n < 10) : natToDigits n = [Nat.digitChar n] := by
  conv_lhs => rw [natToDigits]
  simp [h]

theorem natToDigits_large (n : Nat) (h : ¬ n < 10) :
    natToDigits n = natToDigits (n / 10) ++ [Nat.digitChar (n % 10)] := by
  conv_lhs => rw [natToDigits]
  simp [h]

theorem natToDigits_ne_nil (n : Nat) : natToDigits n ≠ [] := by
  by_cases h : n < 10
  · rw [natToDigits_small n h]; simp
  · rw [natToDigits_large n h]; simp

theorem natToDigits_all_digit (n : Nat) : ∀ c ∈ natToDigits n, c.isDigit = true := by
  induction n using Nat.strong_induction_on with
  | _ n ih =>
    by_cases h : n < 10
    · rw [natToDigits_small n h]
      intro c hc
      simp at hc
      subst hc
      exact digitChar_isDigit n h
    · rw [natToDigits_large n h]
      intro c hc
      rcases List.mem_append.mp hc with hc1 | hc1
      · exact ih (n / 10) (Nat.div_lt_self (by omega) (by omega)) c hc1
      · simp at hc1
        subst hc1
        exact digitChar_isDigit _ (Nat.mod_lt _ (by omega))

theorem natFromDigits_aux (n : Nat) : ∀ a : Nat,
    (natToDigits n).foldl (fun a c => a * 10 + (c.toNat - 48)) a =
      a * 10 ^ (natToDigits n).length + n := by
  induction n using Nat.strong_induction_on with
  | _ n ih =>
    intro a
    by_cases h : n < 10
    · rw [natToDigits_small n h]
      simp [digitChar_toNat n h]
    · rw [natToDigits_large n h]
      rw [List.foldl_append]
      have hd : n / 10 < n := Nat.div_lt_self (by omega) (by omega)
      rw [ih (n / 10) hd a]
      have hm : (Nat.digitChar (n % 10)).toNat = 48 + n % 10 :=
        digitChar_toNat _ (Nat.mod_lt _ (by omega))
      simp only [List.foldl_cons, List.foldl_nil, List.length_append, List.length_cons,
        List.length_nil, hm]
      rw [pow_succ]
      ring_nf
      omega

theorem natFromDigits_natToDigits (n : Nat) : natFromDigits (natToDigits n) = n := by
  unfold natFromDigits
  rw [natFromDigits_aux n 0]
  simp

/-! ### Helper lemmas about takeWhile/dropWhile and number parsing -/

theorem takeWhile_append_all (p : Char → Bool) (xs ys : Str)
    (h : ∀ c ∈ xs, p c = true) :
    (xs ++ ys).takeWhile p = xs ++ ys.takeWhile p := by
  induction xs with
  | nil => simp
  | cons c cs ih =>
    simp only [List.cons_append, List.takeWhile_cons, h c (by simp)]
    rw [ih (fun d hd => h d (by simp [hd]))]
    simp

theorem dropWhile_append_all (p : Char → Bool) (xs ys : Str)
    (h : ∀ c ∈ xs, p c = true) :
    (xs ++ ys).dropWhile p = ys.dropWhile p := by
  induction xs with
  | nil => simp
  | cons c cs ih =>
    simp only [List.cons_append, List.dropWhile_cons, h c (by simp)]
    exact ih (fun d hd => h d (by simp [hd]))

theorem takeWhile_eq_nil_of_head (p : Char → Bool) (ys : Str)
    (h : ∀ c, ys.head? = some c → p c = false) : ys.takeWhile p = [] := by
  cases ys with
  | nil => rfl
  | cons c cs => simp [List.takeWhile_cons, h c rfl]

theorem dropWhile_eq_self_of_head (p : Char → Bool) (ys : Str)
    (h : ∀ c, ys.head? = some c → p c = false) : ys.dropWhile p = ys := by
  cases ys with
  | nil => rfl
  | cons c cs => simp [List.dropWhile_cons, h c rfl]

theorem parseNatPrefix_append (n : Nat) (r : Str)
    (h : ∀ c, r.head? = some c → c.isDigit = false) :
    parseNatPrefix (natToDigits n ++ r) = some (n, r) := by
  unfold parseNatPrefix
  rw [takeWhile_append_all _ _ _ (natToDigits_all_digit n),
      takeWhile_eq_nil_of_head _ _ h,
      dropWhile_append_all _ _ _ (natToDigits_all_digit n),
      dropWhile_eq_self_of_head _ _ h]
  simp only [List.append_nil]
  rw [if_neg (by simp [List.isEmpty_iff, natToDigits_ne_nil n])]
  rw [natFromDigits_natToDigits n]

theorem versionParse_render (v : Version) : Version.parse (Version.render v) = some v := by
  cases v with
  | mk X Y Z =>
    unfold Version.render Version.parse
    rw [parseNatPrefix_append X ('.' :: (natToDigits Y ++ '.' :: natToDigits Z))
        (by intro c hc; simp at hc; subst hc; decide)]
    simp only [Option.some_bind, expectDot]
    rw [parseNatPrefix_append Y ('.' :: natToDigits Z)
        (by intro c hc; simp at hc; subst hc; decide)]
    simp only [Option.some_bind, expectDot]
    have hz := parseNatPrefix_append Z [] (by intro c hc; simp at hc)
    rw [List.append_nil] at hz
    rw [hz]
    rfl

/-! ### Reduction lemmas for the crate-specification parser -/

theorem cvFromStr_eq (rest : Str) :
    CrateVersion.fromStr ('=' :: rest) =
      (match Version.parse rest with
       | some v => Except.ok (CrateVersion.Exact v)
       | none => Except.error (CrateVersionError.SyntaxError rest)) := rfl

theorem cvFromStr_ne (s : Str) (h : s.head? ≠ some '=') :
    CrateVersion.fromStr s =
      (match VersionReq.parse s with
       | some r => Except.ok (CrateVersion.Other r)
       | none => Except.error (CrateVersionError.SemanticsError s)) := by
  cases s with
  | nil => rfl
  | cons c cs =>
    have hc : c ≠ '=' := by simpa using h
    rw [CrateVersion.fromStr.eq_def]
    split
    · next rest heq =>
        exfalso
        apply hc
        have := (List.cons.injEq c cs '=' rest).mp heq
        exact this.1
    · rfl

theorem crateFromStr_nosplit (s : Str) (h : '=' ∉ s) :
    Crate.fromStr s =
      (if (trimStr s).all isAllowedNameChar then
        Except.ok ⟨trimStr s, CrateVersion.Other VersionReq.any⟩
      else Except.error (CrateError.Name (trimStr s))) := by
  unfold Crate.fromStr
  rw [splitFirstEq_of_not_mem s h]

theorem crateFromStr_split (a b : Str) (h : '=' ∉ a) :
    Crate.fromStr (a ++ '=' :: b) =
      (match CrateVersion.fromStr (trimStr b) with
       | Except.ok v => Except.ok ⟨trimStr a, v⟩
       | Except.error e => Except.error (CrateError.Version e)) := by
  unfold Crate.fromStr
  rw [splitFirstEq_append a b h]

theorem render_not_ws (v : Version) : ∀ c ∈ Version.render v, c.isWhitespace = false := by
  intro c hc
  unfold Version.render at hc
  rcases List.mem_append.mp hc with h1 | h1
  · exact digit_not_ws c (natToDigits_all_digit _ c h1)
  · rcases List.mem_cons.mp h1 with rfl | h2
    · decide
    · rcases List.mem_append.mp h2 with h3 | h3
      · exact digit_not_ws c (natToDigits_all_digit _ c h3)
      · rcases List.mem_cons.mp h3 with rfl | h4
        · decide
        · exact digit_not_ws c (natToDigits_all_digit _ c h4)

/-! ### Claim theorems: crate-specification parsing -/

/-- C1 (amended): on the bare-name path every character of the stored
name is in the allowed class, but the name may be empty (the
all-characters check is vacuously true on the empty string), and a
bare name with a disallowed character fails with a name-syntax error
carrying the trimmed text; on the name=version path the trimmed name
is stored with no validation at all. -/
theorem c1_name_validation :
    (∀ s : Str, '=' ∉ s →
      ((trimStr s).all isAllowedNameChar = true →
        Crate.fromStr s = Except.ok ⟨trimStr s, CrateVersion.Other VersionReq.any⟩) ∧
      ((trimStr s).all isAllowedNameChar = false →
        Crate.fromStr s = Except.error (CrateError.Name (trimStr s)))) ∧
    (∀ a b : Str, '=' ∉ a → ∀ v, CrateVersion.fromStr (trimStr b) = Except.ok v →
      Crate.fromStr (a ++ '=' :: b) = Except.ok ⟨trimStr a, v⟩) := by
  constructor
  · intro s h
    constructor
    · intro hall
      rw [crateFromStr_nosplit s h]
      simp [hall]
    · intro hall
      rw [crateFromStr_nosplit s h]
      simp [hall]
  · intro a b h v hv
    rw [crateFromStr_split a b h, hv]

/-- C1 counterexample: the empty token yields a `Crate` whose stored
name is empty, and a name with `/` is stored when a version suffix is
present; both contradict "the stored name is non-empty and of allowed
characters, otherwise a name-syntax error". -/
theorem c1_counterexample :
    Crate.fromStr [] = Except.ok ⟨[], CrateVersion.Other VersionReq.any⟩ ∧
    Crate.fromStr (toChars "a/b=1") =
      Except.ok ⟨toChars "a/b", CrateVersion.Other ⟨[⟨ReqOp.Compatible, 1, none, none⟩]⟩⟩ :=
  ⟨rfl, rfl⟩

/-- C1 witness: the amended theorem applied to the concrete invalid
bare name `fo o`. -/
theorem c1_witness :
    Crate.fromStr (toChars "fo o") =
      Except.error (CrateError.Name (trimStr (toChars "fo o"))) :=
  (c1_name_validation.1 (toChars "fo o") (by decide)).2 (by decide)

/-- C5: a valid bare name (non-empty, allowed characters only, no `=`)
parses to itself with the universal requirement; a bare token whose
trimmed form has a character outside the allowed class (a disallowed
symbol anywhere, or interior whitespace) fails with a name-syntax
error carrying the trimmed text. -/
theorem c5_bare_name :
    (∀ n : Str, n ≠ [] → n.all isAllowedNameChar = true → '=' ∉ n →
      Crate.fromStr n = Except.ok ⟨n, CrateVersion.Other VersionReq.any⟩) ∧
    (∀ s : Str, '=' ∉ s → (∃ c ∈ trimStr s, isAllowedNameChar c = false) →
      Crate.fromStr s = Except.error (CrateError.Name (trimStr s))) := by
  constructor
  · intro n _hne hall hno
    have hmem : ∀ c ∈ n, isAllowedNameChar c = true := by
      intro c hc
      exact List.all_eq_true.mp hall c hc
    have htrim : trimStr n = n :=
      trimStr_eq_self n (fun c hc => allowed_not_ws c (hmem c hc))
    rw [crateFromStr_nosplit n hno, htrim]
    simp [hall]
  · intro s hno hex
    have hallf : (trimStr s).all isAllowedNameChar = false := by
      rcases hex with ⟨c, hc, hcf⟩
      cases h2 : (trimStr s).all isAllowedNameChar
      · rfl
      · exact absurd (List.all_eq_true.mp h2 c hc) (by simp [hcf])
    rw [crateFromStr_nosplit s hno]
    simp [hallf]

/-- C5 witness: the theorem applied to the concrete valid name `serde`
and the concrete invalid token `fo@o`. -/
theorem c5_witness :
    Crate.fromStr (toChars "serde") =
      Except.ok ⟨toChars "serde", CrateVersion.Other VersionReq.any⟩ ∧
    Crate.fromStr (toChars "fo@o") =
      Except.error (CrateError.Name (trimStr (toChars "fo@o"))) :=
  ⟨c5_bare_name.1 (toChars "serde") (by decide) (by decide) (by decide),
   c5_bare_name.2 (toChars "fo@o") (by decide) ⟨'@', by decide, by decide⟩⟩

/-- C6: for every valid name and numeric version, parsing `n==X.Y.Z`
yields the crate with name `n` and exact version pin `X.Y.Z`, and
rendering that crate produces exactly `n==X.Y.Z` back. -/
theorem c6_parse_render_roundtrip (n : Str) (X Y Z : Nat)
    (_hne : n ≠ []) (hall : n.all isAllowedNameChar = true) :
    Crate.fromStr (n ++ '=' :: '=' :: Version.render ⟨X, Y, Z⟩) =
      Except.ok ⟨n, CrateVersion.Exact ⟨X, Y, Z⟩⟩ ∧
    Crate.render ⟨n, CrateVersion.Exact ⟨X, Y, Z⟩⟩ =
      n ++ '=' :: '=' :: Version.render ⟨X, Y, Z⟩ := by
  have hmem : ∀ c ∈ n, isAllowedNameChar c = true := by
    intro c hc
    exact List.all_eq_true.mp hall c hc
  have hnoeq : '=' ∉ n := fun hin => allowed_ne_eqChar '=' (hmem '=' hin) rfl
  constructor
  · rw [crateFromStr_split n ('=' :: Version.render ⟨X, Y, Z⟩) hnoeq]
    have htrimb : trimStr ('=' :: Version.render ⟨X, Y, Z⟩) =
        '=' :: Version.render ⟨X, Y, Z⟩ := by
      apply trimStr_eq_self
      intro c hc
      rcases List.mem_cons.mp hc with rfl | hc1
      · decide
      · exact render_not_ws _ c hc1
    rw [htrimb, cvFromStr_eq, versionParse_render ⟨X, Y, Z⟩]
    have htrima : trimStr n = n :=
      trimStr_eq_self n (fun c hc => allowed_not_ws c (hmem c hc))
    rw [htrima]
  · rfl

/-- C6 witness: the theorem applied to the concrete name `foo` and
version `1.2.3`. -/
theorem c6_witness :
    Crate.fromStr (toChars "foo" ++ '=' :: '=' :: Version.render ⟨1, 2, 3⟩) =
      Except.ok ⟨toChars "foo", CrateVersion.Exact ⟨1, 2, 3⟩⟩ ∧
    Crate.render ⟨toChars "foo", CrateVersion.Exact ⟨1, 2, 3⟩⟩ =
      toChars "foo" ++ '=' :: '=' :: Version.render ⟨1, 2, 3⟩ :=
  c6_parse_render_roundtrip (toChars "foo") 1 2 3 (by decide) (by decide)

/-- C10 (amended): a token beginning with `=` splits at that first `=`:
the name is the empty string and the version parser receives the
trimmed remainder; when that remainder does not itself begin with `=`,
the result is the `Other` variant on requirement-parse success (or the
wrapped version-semantics error on failure); `Exact` can arise from
such a token only when the trimmed remainder starts with a second `=`. -/
theorem c10_leading_eq (rest : Str) (h : (trimStr rest).head? ≠ some '=') :
    (∃ r, VersionReq.parse (trimStr rest) = some r ∧
       Crate.fromStr ('=' :: rest) = Except.ok ⟨[], CrateVersion.Other r⟩) ∨
    (VersionReq.parse (trimStr rest) = none ∧
       Crate.fromStr ('=' :: rest) = Except.error
         (CrateError.Version (CrateVersionError.SemanticsError (trimStr rest)))) := by
  have hsplit := crateFromStr_split [] rest (by simp)
  simp only [List.nil_append] at hsplit
  rw [cvFromStr_ne (trimStr rest) h] at hsplit
  cases hp : VersionReq.parse (trimStr rest) with
  | some r => exact Or.inl ⟨r, rfl, by rw [hp] at hsplit; exact hsplit⟩
  | none => exact Or.inr ⟨rfl, by rw [hp] at hsplit; exact hsplit⟩

/-- C10 counterexample: `==1.0.0` begins with `=` yet produces an
`Exact` version (with empty name), contradicting "a leading '=' on the
whole token never produces an Exact version". -/
theorem c10_counterexample :
    (toChars "==1.0.0").head? = some '=' ∧
    Crate.fromStr (toChars "==1.0.0") =
      Except.ok ⟨[], CrateVersion.Exact ⟨1, 0, 0⟩⟩ :=
  ⟨rfl, rfl⟩

/-- C10 witness: the amended theorem applied to the concrete token
`=1.0.0`. -/
theorem c10_witness :
    Crate.fromStr ('=' :: toChars "1.0.0") =
      Except.ok ⟨[], CrateVersion.Other ⟨[⟨ReqOp.Compatible, 1, some 0, some 0⟩]⟩⟩ := by
  rcases c10_leading_eq (toChars "1.0.0") (by decide) with ⟨r, hr, he⟩ | ⟨hn, _⟩
  · have h2 : VersionReq.parse (trimStr (toChars "1.0.0")) =
        some ⟨[⟨ReqOp.Compatible, 1, some 0, some 0⟩]⟩ := rfl
    rw [h2] at hr
    rw [← Option.some.inj hr] at he
    exact he
  · exact absurd hn (by decide)

/-! ### Claim theorems: version dispatch, output mapping, projections -/

/-- C3: the version sub-string parser dispatches on a leading `=`:
with it, the remainder is parsed as a single fully-specified semantic
version (`Exact` on success, a version-syntax error carrying the
remainder on failure); without it, the whole string is parsed as a
range requirement (`Other` on success, a version-semantics error on
failure). -/
theorem c3_version_dispatch (s : Str) :
    (∀ rest : Str, s = '=' :: rest →
      ((∃ v, Version.parse rest = some v ∧
          CrateVersion.fromStr s = Except.ok (CrateVersion.Exact v)) ∨
       (Version.parse rest = none ∧
          CrateVersion.fromStr s = Except.error (CrateVersionError.SyntaxError rest)))) ∧
    (s.head? ≠ some '=' →
      ((∃ r, VersionReq.parse s = some r ∧
          CrateVersion.fromStr s = Except.ok (CrateVersion.Other r)) ∨
       (VersionReq.parse s = none ∧
          CrateVersion.fromStr s = Except.error (CrateVersionError.SemanticsError s)))) := by
  constructor
  · rintro rest rfl
    rw [cvFromStr_eq rest]
    cases hv : Version.parse rest with
    | some v => exact Or.inl ⟨v, rfl, rfl⟩
    | none => exact Or.inr ⟨rfl, rfl⟩
  · intro h
    rw [cvFromStr_ne s h]
    cases hr : VersionReq.parse s with
    | some r => exact Or.inl ⟨r, rfl, rfl⟩
    | none => exact Or.inr ⟨rfl, rfl⟩

/-- C3 witness: dispatch at the concrete inputs `=1.0.0` (exact path)
and `bogus` (range path, malformed). -/
theorem c3_witness :
    CrateVersion.fromStr ('=' :: toChars "1.0.0") =
      Except.ok (CrateVersion.Exact ⟨1, 0, 0⟩) ∧
    CrateVersion.fromStr (toChars "bogus") =
      Except.error (CrateVersionError.SemanticsError (toChars "bogus")) := by
  constructor
  · rcases (c3_version_dispatch ('=' :: toChars "1.0.0")).1 (toChars "1.0.0") rfl with
      ⟨v, hv, he⟩ | ⟨hn, _⟩
    · have h2 : Version.parse (toChars "1.0.0") = some ⟨1, 0, 0⟩ := rfl
      rw [h2] at hv
      rw [← Option.some.inj hv] at he
      exact he
    · exact absurd hn (by decide)
  · rcases (c3_version_dispatch (toChars "bogus")).2 (by decide) with
      ⟨r, hr, _⟩ | ⟨_, he⟩
    · have h2 : VersionReq.parse (toChars "bogus") = none := rfl
      rw [h2] at hr
      cases hr
    · exact he

/-- C7: the string-to-Output mapping is a total function on strings:
`-` maps to `Stdout`, every other string (including the empty string)
maps to `Path` wrapping exactly that string. -/
theorem c7_output_mapping :
    Output.fromStr ['-'] = Output.Stdout ∧
    (∀ s : Str, s ≠ ['-'] → Output.fromStr s = Output.Path s) ∧
    Output.fromStr [] = Output.Path [] := by
  refine ⟨rfl, ?_, rfl⟩
  intro s h
  simp [Output.fromStr, h]

/-- C7 witness: the mapping applied to a concrete non-dash string. -/
theorem c7_witness :
    Output.fromStr (toChars "serde.crate") = Output.Path (toChars "serde.crate") :=
  c7_output_mapping.2.1 (toChars "serde.crate") (by decide)

/-- C9: `version_requirement` projects `Exact v` to the singleton
requirement matching exactly `v` and `Other r` to `r` itself, and
`exact_version` is `some v` exactly on the `Exact` variant. -/
theorem c9_version_projection :
    ∀ (n : Str) (v : Version) (r : VersionReq),
      Crate.version_requirement ⟨n, CrateVersion.Exact v⟩ = VersionReq.exact v ∧
      (∀ w, VersionReq.matches (VersionReq.exact v) w = true ↔ w = v) ∧
      Crate.exact_version ⟨n, CrateVersion.Exact v⟩ = some v ∧
      Crate.version_requirement ⟨n, CrateVersion.Other r⟩ = r ∧
      Crate.exact_version ⟨n, CrateVersion.Other r⟩ = none := by
  intro n v r
  refine ⟨rfl, ?_, rfl, rfl, rfl⟩
  intro w
  cases v with
  | mk a b c =>
    cases w with
    | mk x y z =>
      simp [VersionReq.matches, VersionReq.exact, Predicate.exact, Predicate.matches,
        Option.all, Version.mk.injEq]
      tauto

/-- C9 witness: the projection equivalence at a concrete version. -/
theorem c9_witness :
    VersionReq.matches (VersionReq.exact ⟨1, 2, 3⟩) ⟨1, 2, 3⟩ = true :=
  ((c9_version_projection [] ⟨1, 2, 3⟩ VersionReq.any).2.1 ⟨1, 2, 3⟩).mpr rfl

/-! ### Reduction lemmas for options assembly and grammar matching -/

theorem tryFrom_err (m : Matches) (e : CrateError)
    (he : Crate.fromStr m.crate = Except.error e) :
    Options.tryFrom m = Except.error (ArgsError.Crate e) := by
  unfold Options.tryFrom
  rw [he]

theorem tryFrom_ok (m : Matches) (c : Crate)
    (hc : Crate.fromStr m.crate = Except.ok c) :
    Options.tryFrom m =
      (if decide (0 < m.extract) = true ∧ m.output.map Output.fromStr = some Output.Stdout
       then Except.error ArgsError.CantExtractToStdout
       else Except.ok ⟨(m.verbose : Int) - (m.quiet : Int), c, decide (0 < m.extract),
         m.output.map Output.fromStr⟩) := by
  unfold Options.tryFrom
  rw [hc]

theorem getMatchesFrom_validate (argv : List Str) (st : ArgState)
    (hp : processTokens (argv.drop 1) initArgState = Except.ok st) :
    getMatchesFrom argv = validateMatches st := by
  unfold getMatchesFrom
  rw [hp]

/-! ### Claim theorems: options assembly and grammar -/

/-- C2: options assembly fails with the dedicated cross-field error
`CantExtractToStdout` exactly when extract is requested together with
stdout output; every other combination succeeds once the crate token
parsed; a crate parse failure propagates before the cross-field check;
and the cross-field error is distinct from both parse-error shapes. -/
theorem c2_extract_stdout_check (m : Matches) :
    (∀ e, Crate.fromStr m.crate = Except.error e →
      Options.tryFrom m = Except.error (ArgsError.Crate e)) ∧
    (∀ c, Crate.fromStr m.crate = Except.ok c →
      ((0 < m.extract ∧ m.output.map Output.fromStr = some Output.Stdout) →
        Options.tryFrom m = Except.error ArgsError.CantExtractToStdout) ∧
      (¬(0 < m.extract ∧ m.output.map Output.fromStr = some Output.Stdout) →
        Options.tryFrom m = Except.ok
          ⟨(m.verbose : Int) - (m.quiet : Int), c, decide (0 < m.extract),
            m.output.map Output.fromStr⟩)) ∧
    (∀ e, ArgsError.CantExtractToStdout ≠ ArgsError.Parse e) ∧
    (∀ e, ArgsError.CantExtractToStdout ≠ ArgsError.Crate e) := by
  refine ⟨fun e he => tryFrom_err m e he, ?_, ?_, ?_⟩
  · intro c hc
    constructor
    · intro h
      rw [tryFrom_ok m c hc, if_pos (by simpa using h)]
    · intro h
      rw [tryFrom_ok m c hc, if_neg (by simpa using h)]
  · intro e h
    cases h
  · intro e h
    cases h

/-- C2 witness: the check at concrete match-sets — extract together
with `-o -` fails with the dedicated error; extract with a path output
succeeds. -/
theorem c2_witness :
    Options.tryFrom ⟨0, 0, 1, some (toChars "-"), toChars "serde"⟩ =
      Except.error ArgsError.CantExtractToStdout ∧
    Options.tryFrom ⟨0, 0, 1, some (toChars "out"), toChars "serde"⟩ =
      Except.ok ⟨0, ⟨toChars "serde", CrateVersion.Other VersionReq.any⟩, true,
        some (Output.Path (toChars "out"))⟩ :=
  ⟨((c2_extract_stdout_check ⟨0, 0, 1, some (toChars "-"), toChars "serde"⟩).2.1
      ⟨toChars "serde", CrateVersion.Other VersionReq.any⟩ rfl).1 ⟨by decide, rfl⟩,
   ((c2_extract_stdout_check ⟨0, 0, 1, some (toChars "out"), toChars "serde"⟩).2.1
      ⟨toChars "serde", CrateVersion.Other VersionReq.any⟩ rfl).2 (by decide)⟩

/-- C8: every successfully assembled `Options` has verbosity equal to
the verbose-flag count minus the quiet-flag count, and the grammar
matcher never produces a match-set with both a verbose and a quiet
occurrence (the conflict is a grammar-level error, so assembly never
sees it). -/
theorem c8_verbosity :
    (∀ (m : Matches) (o : Options), Options.tryFrom m = Except.ok o →
      o.verbosity = (m.verbose : Int) - (m.quiet : Int)) ∧
    (∀ (argv : List Str) (m : Matches), getMatchesFrom argv = Except.ok m →
      ¬(0 < m.verbose ∧ 0 < m.quiet)) := by
  constructor
  · intro m o h
    cases hc : Crate.fromStr m.crate with
    | error e =>
      rw [tryFrom_err m e hc] at h
      cases h
    | ok c =>
      rw [tryFrom_ok m c hc] at h
      by_cases hcond : decide (0 < m.extract) = true ∧
          m.output.map Output.fromStr = some Output.Stdout
      · rw [if_pos hcond] at h
        cases h
      · rw [if_neg hcond] at h
        have h2 := Except.ok.inj h
        rw [← h2]
  · intro argv m h
    cases hp : processTokens (argv.drop 1) initArgState with
    | error e =>
      unfold getMatchesFrom at h
      rw [hp] at h
      cases h
    | ok st =>
      rw [getMatchesFrom_validate argv st hp] at h
      unfold validateMatches at h
      by_cases hc : 0 < st.verbose ∧ 0 < st.quiet
      · rw [if_pos hc] at h
        cases h
      · rw [if_neg hc] at h
        cases hcr : st.crate with
        | none =>
          rw [hcr] at h
          cases h
        | some c =>
          rw [hcr] at h
          have h2 : Except.ok (⟨st.verbose, st.quiet, st.extract, st.output, c⟩ : Matches) =
              Except.ok m := h
          rw [← Except.ok.inj h2]
          exact hc

/-- C8 witness: verbosity of a concrete assembled `Options` with three
verbose occurrences, and a concrete matched invocation (`-vv`) showing
no conflicting match-set. -/
theorem c8_witness :
    (⟨3, ⟨toChars "foo", CrateVersion.Other VersionReq.any⟩, false, none⟩ : Options).verbosity =
      ((3 : Nat) : Int) - ((0 : Nat) : Int) ∧
    ¬(0 < (2 : Nat) ∧ 0 < (0 : Nat)) :=
  ⟨c8_verbosity.1 ⟨3, 0, 0, none, toChars "foo"⟩
      ⟨3, ⟨toChars "foo", CrateVersion.Other VersionReq.any⟩, false, none⟩ rfl,
   c8_verbosity.2 [toChars "prog", toChars "-vv", toChars "tokio"]
      ⟨2, 0, 0, none, toChars "tokio"⟩ rfl⟩

/-! ### Claim theorems: invocation normalization -/

theorem stripDownload_cons (a b : Str) (rest : List Str) :
    stripDownload (a :: b :: rest) =
      if b = downloadTok then a :: rest else a :: b :: rest := rfl

/-- C4 (amended): when the element at index 1 equals `download` it is
removed and the remainder is matched with no further stripping, so
parsing equals parsing the reduced list exactly when the reduced list
does not itself carry `download` at index 1; an occurrence of
`download` anywhere else is never discarded; and `[bin, "download"]`
is stripped too (the code cannot tell that the token was the crate
argument), leaving a missing-argument grammar error. -/
theorem c4_download_strip (a b : Str) (rest : List Str) :
    (b = downloadTok → parseFromArgv (a :: b :: rest) = parseNoSub (a :: rest)) ∧
    (b = downloadTok → rest.head? ≠ some downloadTok →
      parseFromArgv (a :: b :: rest) = parseFromArgv (a :: rest)) ∧
    (b ≠ downloadTok → parseFromArgv (a :: b :: rest) = parseNoSub (a :: b :: rest)) := by
  refine ⟨?_, ?_, ?_⟩
  · rintro rfl
    unfold parseFromArgv
    rw [stripDownload_cons, if_pos rfl]
  · rintro rfl h
    unfold parseFromArgv
    rw [stripDownload_cons, if_pos rfl]
    cases rest with
    | nil => rfl
    | cons c rs =>
      have hc : c ≠ downloadTok := by simpa using h
      rw [stripDownload_cons, if_neg hc]
  · intro hb
    unfold parseFromArgv
    rw [stripDownload_cons, if_neg hb]

/-- C4 counterexample: for `[bin, "download", "download"]` the claim's
"parse equals parse of the list with the index-1 element removed"
fails — the original parses the surviving `download` as the crate,
while the reduced list is stripped again and fails with a
missing-argument grammar error; the second conjunct shows
`[bin, "download"]` is stripped rather than treated as the crate. -/
theorem c4_counterexample :
    parseFromArgv [toChars "cargo-download", downloadTok, downloadTok] ≠
      parseFromArgv [toChars "cargo-download", downloadTok] ∧
    parseFromArgv [toChars "cargo-download", downloadTok] =
      Except.error (ArgsError.Parse ClapError.missingRequired) := by
  constructor
  · intro h
    rw [show parseFromArgv [toChars "cargo-download", downloadTok, downloadTok] =
          Except.ok ⟨0, ⟨downloadTok, CrateVersion.Other VersionReq.any⟩, false, none⟩
        from rfl,
        show parseFromArgv [toChars "cargo-download", downloadTok] =
          Except.error (ArgsError.Parse ClapError.missingRequired) from rfl] at h
    cases h
  · rfl

/-- C4 witness: the amended theorem applied to a concrete invocation
with a genuinely separate crate token. -/
theorem c4_witness :
    parseFromArgv [toChars "cargo-download", downloadTok, toChars "serde"] =
      parseFromArgv [toChars "cargo-download", toChars "serde"] :=
  (c4_download_strip (toChars "cargo-download") downloadTok [toChars "serde"]).2.1 rfl
    (by decide)
